import Mathlib

/-!
# Verification of the rag-poc core against its specification

Shallow embedding of the repository's core logic:

* the text chunker (`EmbeddingService.splitText` and its boundary helpers
  `findSentenceEnd` / `findWordEnd` from `src/embeddings.ts`),
* the vector store (`VectorStoreService` from `src/vectorstore.ts`), and
* the retry wrapper (`EmbeddingService.retryRequest`).

Modelling conventions:
* JS strings are `List Char`; `text.slice(a, b)` is `(t.drop a).take (b - a)`;
  the regex classes `\s` and `[.!?]` are modelled over ASCII characters.
* JS numbers holding character counts/indices are `Nat`; epoch-millisecond
  timestamps (the value of `new Date(s).getTime()` for the ISO strings the
  code stores) are `Int`; embedding-vector components and similarity scores
  are `ℝ` (the sqrt in cosine similarity forces real arithmetic).
* JS objects used as maps (`Record<number, ...>`, `Record<string, ...>`)
  are association lists in property-insertion order: assignment replaces an
  existing key in place or appends a new one, `delete` removes the key,
  `Object.values` / `Object.keys` enumerate in that order.
* `async` methods whose only effects are on the service's own state and the
  backing file are pure state transformers; `throw` is `Except.error`.
-/

namespace RagPoc

/-! ## Chunker: character-level helpers -/

/-- The regex class `\s`, restricted to ASCII whitespace. -/
def isWS (c : Char) : Bool := c.isWhitespace

/-- `/\s/.test(text[i])`: false when `i` is out of range (JS `undefined`). -/
def isWSAt (t : List Char) (i : Nat) : Bool :=
  match t[i]? with
  | some c => isWS c
  | none => false

/-- JS `String.prototype.trim()`: strip whitespace from both ends. -/
def jsTrim (l : List Char) : List Char :=
  ((l.dropWhile isWS).reverse.dropWhile isWS).reverse

/-- The regex `/[.!?]\s/` matches at index `i`. -/
def isSentenceEnderAt (t : List Char) (i : Nat) : Bool :=
  match t[i]?, t[i + 1]? with
  | some c, some d => (c = '.' || c = '!' || c = '?') && isWS d
  | _, _ => false

/-- `EmbeddingService.findSentenceEnd`: the regex `/[.!?]\s/g` is scanned
from `lastIndex = minPos`; the loop breaks at the first match with
`index > targetPos` and records `lastEnd = index + 1` for each earlier match,
so `lastEnd` is (greatest match index in `[minPos, targetPos]`) + 1; the
function returns `lastEnd` when `lastEnd > minPos` (automatic whenever a
match was recorded) and `targetPos` otherwise. -/
def findSentenceEnd (t : List Char) (targetPos minPos : Nat) : Nat :=
  match ((List.range (targetPos + 1)).filter
      (fun i => decide (minPos ≤ i) && isSentenceEnderAt t i)).getLast? with
  | some i => i + 1
  | none => targetPos

/-- The countdown loop of `findWordEnd`: `for (let i = targetPos; i > minPos; i--)
if (/\s/.test(text[i])) return i; return targetPos;` (`orig` holds the
original `targetPos` returned when the loop exhausts). -/
def findWordEndAux (t : List Char) (minPos orig : Nat) : Nat → Nat
  | 0 => orig
  | i + 1 =>
    if minPos < i + 1 then
      (if isWSAt t (i + 1) then i + 1 else findWordEndAux t minPos orig i)
    else orig

/-- `EmbeddingService.findWordEnd`. -/
def findWordEnd (t : List Char) (targetPos minPos : Nat) : Nat :=
  findWordEndAux t minPos targetPos targetPos

/-! ## Chunker: splitText -/

structure ChunkingOptions where
  size : Nat
  overlap : Nat
  preserveWords : Bool
  preserveSentences : Bool
deriving Repr, DecidableEq

/-- The configuration accepted by `splitText`'s own validation
(`size > 0`, `0 ≤ overlap < size`; overlap is a `Nat`, so only the upper
bound is a real constraint). -/
def ChunkingOptions.valid (o : ChunkingOptions) : Prop :=
  0 < o.size ∧ o.overlap < o.size

instance : DecidablePred ChunkingOptions.valid := fun o =>
  inferInstanceAs (Decidable (0 < o.size ∧ o.overlap < o.size))

/-- One iteration's provisional-then-adjusted window end: `end = start + size`,
pulled to a sentence (resp. word) boundary when enabled and `end` is still
inside the text, each adjustment guarded by `> start`. -/
def windowEnd (t : List Char) (o : ChunkingOptions) (start : Nat) : Nat :=
  if start + o.size < t.length then
    if o.preserveSentences then
      (if start < findSentenceEnd t (start + o.size) start
        then findSentenceEnd t (start + o.size) start
        else start + o.size)
    else if o.preserveWords then
      (if start < findWordEnd t (start + o.size) start
        then findWordEnd t (start + o.size) start
        else start + o.size)
    else start + o.size
  else start + o.size

/-- The advance of `start` at the end of each iteration:
`newStart = end - overlap`, replaced by `start + max(1, floor(size / 2))`
whenever it would not pass `start` (JS-negative values of `end - overlap`
are `≤ start` as well, so `Nat` truncation agrees with the JS comparison). -/
def nextStart (o : ChunkingOptions) (start e : Nat) : Nat :=
  if e - o.overlap ≤ start then start + max 1 (o.size / 2) else e - o.overlap

/-- `Math.ceil(text.length / Math.max(1, size - overlap))`'s divisor. -/
def chunkStep (o : ChunkingOptions) : Nat := max 1 (o.size - o.overlap)

/-- The iteration cap `maxIterations = ceil(len / max(1, size - overlap)) + 100`. -/
def maxIterations (t : List Char) (o : ChunkingOptions) : Nat :=
  (t.length + chunkStep o - 1) / chunkStep o + 100

/-- The `while (start < text.length && iterations < maxIterations)` loop of
`splitText`, with `fuel = maxIterations - iterations` as the structural
measure. Returns the emitted `(start, end)` windows (a chunk is pushed only
when its slice trims to a non-empty string) and the final iteration count.
The JS loop's trailing `if (start >= text.length) break` only pre-empts the
loop guard and does not change the result. -/
def splitLoop (t : List Char) (o : ChunkingOptions) :
    Nat → Nat → Nat → List (Nat × Nat) × Nat
  | 0, _, iters => ([], iters)
  | fuel + 1, start, iters =>
    if start < t.length then
      let e := windowEnd t o start
      let chunk := (t.drop start).take (e - start)
      let res := splitLoop t o fuel (nextStart o start e) (iters + 1)
      (if (jsTrim chunk).length > 0 then (start, e) :: res.1 else res.1, res.2)
    else ([], iters)

/-- `EmbeddingService.splitText`, instrumented to return the `[start, end)`
window of each emitted chunk (the chunk string is `text.slice(start, end)`,
recovered by `splitText` below). Errors: invalid size, invalid overlap, and
the overflow check `iterations >= maxIterations` after the loop. -/
def splitTextRanges (t : List Char) (o : ChunkingOptions) :
    Except String (List (Nat × Nat)) :=
  if o.size = 0 then
    .error "Invalid chunk size"
  else if o.size ≤ o.overlap then
    .error "Invalid overlap (must be 0 <= overlap < size)"
  else if maxIterations t o ≤ (splitLoop t o (maxIterations t o) 0 0).2 then
    .error "Text splitting exceeded maximum iterations - possible infinite loop"
  else .ok (splitLoop t o (maxIterations t o) 0 0).1

/-- `text.slice(start, end)` for a window. -/
def sliceRange (t : List Char) (r : Nat × Nat) : List Char :=
  (t.drop r.1).take (r.2 - r.1)

/-- `EmbeddingService.splitText`: the emitted chunk strings, with the final
`chunks.filter(chunk => chunk.trim().length > 0)`. -/
def splitText (t : List Char) (o : ChunkingOptions) :
    Except String (List (List Char)) :=
  match splitTextRanges t o with
  | .error m => .error m
  | .ok ranges => .ok ((ranges.map (sliceRange t)).filter
      (fun c => (jsTrim c).length > 0))

/-! ## Chunker: basic lemmas -/

theorem findSentenceEnd_le (t : List Char) (p m : Nat) :
    findSentenceEnd t p m ≤ p + 1 := by
  unfold findSentenceEnd
  split
  · next i heq =>
    have hmem := List.mem_of_getLast?_eq_some heq
    have h1 := (List.mem_filter.mp hmem).1
    have h2 := List.mem_range.mp h1
    omega
  · omega

theorem findWordEndAux_le (t : List Char) (m orig : Nat) :
    ∀ i, findWordEndAux t m orig i ≤ max orig i := by
  intro i
  induction i with
  | zero => simp [findWordEndAux]
  | succ i ih =>
    unfold findWordEndAux
    split
    · split
      · omega
      · omega
    · omega

theorem findWordEnd_le (t : List Char) (p m : Nat) : findWordEnd t p m ≤ p := by
  have h := findWordEndAux_le t m p p
  rw [Nat.max_self] at h
  exact h

theorem windowEnd_le (t : List Char) (o : ChunkingOptions) (start : Nat) :
    windowEnd t o start ≤ start + o.size + 1 := by
  unfold windowEnd
  have h1 := findSentenceEnd_le t (start + o.size) start
  have h2 := findWordEnd_le t (start + o.size) start
  split
  · split
    · split <;> omega
    · split
      · split <;> omega
      · omega
  · omega

theorem windowEnd_flags_off (t : List Char) (o : ChunkingOptions) (start : Nat)
    (hps : o.preserveSentences = false) (hpw : o.preserveWords = false) :
    windowEnd t o start = start + o.size := by
  unfold windowEnd
  rw [hps, hpw]
  simp

theorem nextStart_flags_valid (o : ChunkingOptions) (start : Nat) (hv : o.valid) :
    nextStart o start (start + o.size) = start + chunkStep o := by
  obtain ⟨hs, ho⟩ := hv
  unfold nextStart chunkStep
  have h1 : start + o.size - o.overlap = start + (o.size - o.overlap) := by omega
  rw [h1, if_neg (by omega)]
  have h2 : max 1 (o.size - o.overlap) = o.size - o.overlap :=
    Nat.max_eq_right (by omega)
  omega

/-- Unfolding lemma: one loop iteration when the guard holds. -/
theorem splitLoop_succ_lt (t : List Char) (o : ChunkingOptions)
    (fuel start iters : Nat) (h : start < t.length) :
    splitLoop t o (fuel + 1) start iters =
      ((if 0 < (jsTrim ((t.drop start).take (windowEnd t o start - start))).length
        then (start, windowEnd t o start) ::
          (splitLoop t o fuel (nextStart o start (windowEnd t o start)) (iters + 1)).1
        else (splitLoop t o fuel (nextStart o start (windowEnd t o start)) (iters + 1)).1),
       (splitLoop t o fuel (nextStart o start (windowEnd t o start)) (iters + 1)).2) := by
  simp only [splitLoop]
  rw [if_pos h]

/-- Unfolding lemma: loop exit when the guard fails. -/
theorem splitLoop_succ_ge (t : List Char) (o : ChunkingOptions)
    (fuel start iters : Nat) (h : ¬ start < t.length) :
    splitLoop t o (fuel + 1) start iters = ([], iters) := by
  simp only [splitLoop]
  rw [if_neg h]

theorem splitLoop_ranges_bound (t : List Char) (o : ChunkingOptions) :
    ∀ fuel start iters r, r ∈ (splitLoop t o fuel start iters).1 →
      r.2 ≤ r.1 + o.size + 1 := by
  intro fuel
  induction fuel with
  | zero => intro start iters r hr; simp [splitLoop] at hr
  | succ fuel ih =>
    intro start iters r hr
    by_cases hlt : start < t.length
    · rw [splitLoop_succ_lt t o fuel start iters hlt] at hr
      dsimp only at hr
      split at hr
      · rcases List.mem_cons.mp hr with h | h
        · subst h
          have := windowEnd_le t o start
          simpa using this
        · exact ih _ _ _ h
      · exact ih _ _ _ hr
    · rw [splitLoop_succ_ge t o fuel start iters hlt] at hr
      simp at hr

theorem all_ws_of_jsTrim_eq_nil (l : List Char) (h : jsTrim l = []) :
    ∀ c ∈ l, isWS c = true := by
  unfold jsTrim at h
  have h1 : (l.dropWhile isWS).reverse.dropWhile isWS = [] := by
    rw [← List.reverse_eq_nil_iff]
    exact h
  rw [List.dropWhile_eq_nil_iff] at h1
  intro c hc
  by_cases hw : isWS c = true
  · exact hw
  · exfalso
    have hsplit := List.takeWhile_append_dropWhile (p := isWS) (l := l)
    rw [← hsplit] at hc
    rcases List.mem_append.mp hc with hmem | hmem
    · exact hw (List.mem_takeWhile_imp hmem)
    · exact hw (h1 c (List.mem_reverse.mpr hmem))

theorem jsTrim_length_pos {l : List Char} {c : Char} (hc : c ∈ l)
    (hw : isWS c = false) : 0 < (jsTrim l).length := by
  rcases Nat.eq_zero_or_pos (jsTrim l).length with h | h
  · have hall := all_ws_of_jsTrim_eq_nil l (List.length_eq_zero.mp h) c hc
    rw [hw] at hall
    cases hall
  · exact h

theorem isWSAt_false_elem {t : List Char} {p : Nat} (hp : p < t.length)
    (h : isWSAt t p = false) : isWS (t.get ⟨p, hp⟩) = false := by
  unfold isWSAt at h
  rw [List.getElem?_eq_getElem hp] at h
  rw [List.get_eq_getElem]
  exact h

/-- With boundary preservation disabled and a valid configuration, the loop
from `start` emits a window containing every in-range non-whitespace
position `p ≥ start`, provided enough fuel remains to reach the end of the
text. -/
theorem splitLoop_covers (t : List Char) (o : ChunkingOptions)
    (hv : o.valid) (hpw : o.preserveWords = false)
    (hps : o.preserveSentences = false) :
    ∀ fuel start iters p, start ≤ p → p < t.length → isWSAt t p = false →
      t.length ≤ start + fuel * chunkStep o →
      ∃ r ∈ (splitLoop t o fuel start iters).1, r.1 ≤ p ∧ p < r.2 := by
  intro fuel
  induction fuel with
  | zero =>
    intro start iters p h1 h2 h3 h4
    simp only [Nat.zero_mul, Nat.add_zero] at h4
    omega
  | succ fuel ih =>
    intro start iters p h1 h2 h3 h4
    obtain ⟨hsz, hov⟩ := hv
    have hwe : windowEnd t o start = start + o.size :=
      windowEnd_flags_off t o start hps hpw
    have hns : nextStart o start (start + o.size) = start + chunkStep o :=
      nextStart_flags_valid o start ⟨hsz, hov⟩
    have hstep_le : chunkStep o ≤ o.size := by
      unfold chunkStep
      omega
    have hstep_pos : 0 < chunkStep o := by
      unfold chunkStep
      omega
    rw [splitLoop_succ_lt t o fuel start iters (by omega)]
    dsimp only
    by_cases hcase : p < start + o.size
    · -- the current window covers p, and p's character forces emission
      have hidx : p - start < ((t.drop start).take (windowEnd t o start - start)).length := by
        rw [hwe]
        simp [List.length_take, List.length_drop]
        omega
      have hgetd : p - start < (t.drop start).length := by
        simp [List.length_drop]
        omega
      have hget : ((t.drop start).take (windowEnd t o start - start)).get
          ⟨p - start, hidx⟩ = t.get ⟨p, h2⟩ := by
        simp only [List.get_eq_getElem]
        rw [List.getElem_take, List.getElem_drop]
        congr 1
        omega
      have hmemc : (t.get ⟨p, h2⟩) ∈ (t.drop start).take (windowEnd t o start - start) := by
        rw [← hget]
        exact List.get_mem _ _ _
      have hemit : 0 < (jsTrim ((t.drop start).take (windowEnd t o start - start))).length :=
        jsTrim_length_pos hmemc (isWSAt_false_elem h2 h3)
      rw [if_pos hemit]
      refine ⟨(start, windowEnd t o start), List.mem_cons_self _ _, ?_, ?_⟩
      · exact h1
      · rw [hwe]; exact hcase
    · -- p lies beyond the current window: recurse at the advanced start
      have hrec := ih (start + chunkStep o) (iters + 1) p (by omega) h2 h3
        (by rw [Nat.succ_mul] at h4; omega)
      rw [hwe, hns]
      rcases hrec with ⟨r, hr, hrp⟩
      split
      · exact ⟨r, List.mem_cons_of_mem _ hr, hrp⟩
      · exact ⟨r, hr, hrp⟩

theorem splitLoop_iters_le (t : List Char) (o : ChunkingOptions) :
    ∀ fuel start iters, (splitLoop t o fuel start iters).2 ≤ iters + fuel := by
  intro fuel
  induction fuel with
  | zero => intro start iters; simp [splitLoop]
  | succ fuel ih =>
    intro start iters
    by_cases h : start < t.length
    · rw [splitLoop_succ_lt t o fuel start iters h]
      dsimp only
      have := ih (nextStart o start (windowEnd t o start)) (iters + 1)
      omega
    · rw [splitLoop_succ_ge t o fuel start iters h]
      simp

theorem lt_nextStart (o : ChunkingOptions) (start e : Nat) :
    start < nextStart o start e := by
  unfold nextStart
  split
  · omega
  · omega

theorem maxIterations_mul_step (t : List Char) (o : ChunkingOptions) :
    t.length ≤ maxIterations t o * chunkStep o := by
  have hd : 0 < chunkStep o := by unfold chunkStep; omega
  have hdm := Nat.div_add_mod (t.length + chunkStep o - 1) (chunkStep o)
  have hlt := Nat.mod_lt (t.length + chunkStep o - 1) hd
  unfold maxIterations
  rw [Nat.add_mul, Nat.mul_comm]
  generalize chunkStep o * ((t.length + chunkStep o - 1) / chunkStep o) = x at hdm ⊢
  omega

/-! ## Claims C2, C3, C4 -/

/-- C2 counterexample: the claim "every produced chunk has length at most
`size`" fails. With `preserveSentences` on, a `[.!?]\s` match found exactly
at the provisional end makes `findSentenceEnd` return `end + 1`, emitting a
chunk of length `size + 1`: splitting "abc. xyz" with size 3 produces the
4-character chunk "abc.". -/
theorem splitText_chunk_over_size_cex :
    (ChunkingOptions.mk 3 0 false true).valid ∧
    splitText "abc. xyz".data ⟨3, 0, false, true⟩ =
      .ok ["abc.".data, " xy".data, "z".data] ∧
    ∃ c ∈ ["abc.".data, " xy".data, "z".data], ¬ c.length ≤ 3 := by
  refine ⟨by decide, by rfl, by decide⟩

/-- C2 (amended): every chunk produced by `splitText` has length at most
`size + 1`. The extra character appears only via the sentence-boundary
adjustment; word boundaries and the plain window never exceed `size`. -/
theorem splitText_chunk_length_le (t : List Char) (o : ChunkingOptions)
    (cs : List (List Char)) (hok : splitText t o = .ok cs) :
    ∀ c ∈ cs, c.length ≤ o.size + 1 := by
  intro c hc
  unfold splitText at hok
  cases hR : splitTextRanges t o with
  | error m => rw [hR] at hok; cases hok
  | ok ranges =>
    rw [hR] at hok
    have hcs : ((ranges.map (sliceRange t)).filter
        (fun c => (jsTrim c).length > 0)) = cs := by
      injection hok
    rw [← hcs] at hc
    have hmap := List.mem_of_mem_filter hc
    obtain ⟨r, hr, hrc⟩ := List.mem_map.mp hmap
    unfold splitTextRanges at hR
    split at hR
    · cases hR
    · split at hR
      · cases hR
      · split at hR
        · cases hR
        · have hranges : (splitLoop t o (maxIterations t o) 0 0).1 = ranges := by
            injection hR
          rw [← hranges] at hr
          have hbound := splitLoop_ranges_bound t o _ _ _ r hr
          rw [← hrc]
          simp [sliceRange, List.length_take, List.length_drop]
          omega

/-- C2 witness: a concrete run where every chunk length is at most size + 1. -/
theorem splitText_chunk_length_le_witness :
    splitText "abc. xyz".data ⟨3, 0, false, true⟩ =
      .ok ["abc.".data, " xy".data, "z".data] ∧
    ∀ c ∈ ["abc.".data, " xy".data, "z".data], c.length ≤ 3 + 1 :=
  ⟨by rfl, splitText_chunk_length_le ("abc. xyz".data) ⟨3, 0, false, true⟩
    ["abc.".data, " xy".data, "z".data] (by rfl)⟩

/-- C3 counterexample: the claim "every character position of the input
falls inside at least one emitted chunk's range" fails: splitting
"ab  cd" with size 2, overlap 0 discards the whitespace-only middle window,
so positions 2 and 3 are in no emitted chunk's range. -/
theorem splitText_coverage_cex :
    (ChunkingOptions.mk 2 0 false false).valid ∧
    splitTextRanges "ab  cd".data ⟨2, 0, false, false⟩ = .ok [(0, 2), (4, 6)] ∧
    2 < ("ab  cd".data).length ∧
    ∀ r ∈ [((0 : Nat), (2 : Nat)), (4, 6)], ¬ (r.1 ≤ 2 ∧ 2 < r.2) := by
  refine ⟨by decide, by rfl, by decide, by decide⟩

/-- C3 (amended): with `preserveWords` and `preserveSentences` disabled,
every position of the input that holds a non-whitespace character falls
inside at least one emitted chunk's `[start, end)` range. Positions inside
windows whose text is entirely whitespace are not covered (those windows
are discarded), and with boundary preservation enabled the forced advance
can additionally skip positions. -/
theorem splitTextRanges_covers_nonws (t : List Char) (o : ChunkingOptions)
    (hv : o.valid) (hpw : o.preserveWords = false)
    (hps : o.preserveSentences = false)
    (rs : List (Nat × Nat)) (hok : splitTextRanges t o = .ok rs)
    (p : Nat) (hp : p < t.length) (hws : isWSAt t p = false) :
    ∃ r ∈ rs, r.1 ≤ p ∧ p < r.2 := by
  obtain ⟨hsz, hov⟩ := hv
  unfold splitTextRanges at hok
  rw [if_neg (by omega), if_neg (by omega)] at hok
  split at hok
  · cases hok
  · have hrs : (splitLoop t o (maxIterations t o) 0 0).1 = rs := by
      injection hok
    rw [← hrs]
    exact splitLoop_covers t o ⟨hsz, hov⟩ hpw hps (maxIterations t o) 0 0 p
      (Nat.zero_le p) hp hws
      (by have := maxIterations_mul_step t o; omega)

/-- C3 witness: in the counterexample text, the non-whitespace position 4
(character c) is covered by the emitted range [4, 6). -/
theorem splitTextRanges_covers_nonws_witness :
    (ChunkingOptions.mk 2 0 false false).valid ∧
    splitTextRanges "ab  cd".data ⟨2, 0, false, false⟩ = .ok [(0, 2), (4, 6)] ∧
    4 < ("ab  cd".data).length ∧
    isWSAt ("ab  cd".data) 4 = false ∧
    ∃ r ∈ [((0 : Nat), (2 : Nat)), (4, 6)], r.1 ≤ 4 ∧ 4 < r.2 :=
  ⟨by decide, by rfl, by decide, by decide,
    splitTextRanges_covers_nonws ("ab  cd".data) ⟨2, 0, false, false⟩
      (by decide) rfl rfl [(0, 2), (4, 6)] (by rfl) 4 (by decide) (by decide)⟩

/-- C4: the splitter always terminates and never silently truncates: each
iteration advances `start` by at least one (`nextStart` strictly increases,
via the forced advance `max 1 (size / 2)` when `end - overlap` would not
pass `start`), the iteration counter never exceeds `iterations + fuel`
(so at most `maxIterations = ceil(len / max(1, size - overlap)) + 100`
iterations run), and on every valid configuration `splitText` either
returns chunks or fails with the overflow error. -/
theorem splitText_termination (t : List Char) (o : ChunkingOptions)
    (hv : o.valid) :
    (∀ start e, start < nextStart o start e) ∧
    (∀ fuel start iters, (splitLoop t o fuel start iters).2 ≤ iters + fuel) ∧
    ((∃ cs, splitText t o = .ok cs) ∨
      splitText t o =
        .error "Text splitting exceeded maximum iterations - possible infinite loop") := by
  obtain ⟨hsz, hov⟩ := hv
  refine ⟨lt_nextStart o, splitLoop_iters_le t o, ?_⟩
  unfold splitText splitTextRanges
  rw [if_neg (by omega), if_neg (by omega)]
  by_cases hOV : maxIterations t o ≤ (splitLoop t o (maxIterations t o) 0 0).2
  · rw [if_pos hOV]
    right
    rfl
  · rw [if_neg hOV]
    left
    exact ⟨_, rfl⟩

/-- C4 witness: a concrete valid run that returns chunks. -/
theorem splitText_termination_witness :
    (ChunkingOptions.mk 3 0 false true).valid ∧
    ((∃ cs, splitText "abc. xyz".data ⟨3, 0, false, true⟩ = .ok cs) ∨
      splitText "abc. xyz".data ⟨3, 0, false, true⟩ =
        .error "Text splitting exceeded maximum iterations - possible infinite loop") :=
  ⟨by decide, (splitText_termination _ _ (by decide)).2.2⟩

/-! ## JS object maps as association lists

A JS object used as a map holds its entries in property-insertion order:
assignment replaces an existing key in place or appends a new one, `delete`
removes the key, `Object.values` / `Object.keys` / `Object.keys(..).length`
enumerate entries in that order. -/

/-- A JS object used as a map. -/
abbrev Record (k v : Type) : Type := List (k × v)

namespace Record

variable {k v : Type} [DecidableEq k]

/-- Property read: `obj[key]` (`none` is JS `undefined`). -/
def lookup (r : Record k v) (key : k) : Option v :=
  (List.find? (fun e => decide (e.1 = key)) r).map (fun e => e.2)

/-- Property write `obj[key] = val`: replace in place or append. -/
def set (r : Record k v) (key : k) (val : v) : Record k v :=
  match r with
  | [] => [(key, val)]
  | e :: es => if e.1 = key then (key, val) :: es else e :: set es key val

/-- Property delete: `delete obj[key]`. -/
def erase (r : Record k v) (key : k) : Record k v :=
  r.filter (fun e => decide (e.1 ≠ key))

/-- `Object.values(obj)`. -/
def values (r : Record k v) : List v := r.map (fun e => e.2)

/-- `Object.keys(obj)`. -/
def keys (r : Record k v) : List k := r.map (fun e => e.1)

theorem lookup_nil (key : k) : lookup ([] : Record k v) key = none := rfl

theorem lookup_cons_of_pos (es : Record k v) {e : k × v} {key : k}
    (h : e.1 = key) : lookup (e :: es) key = some e.2 := by
  unfold lookup
  rw [List.find?_cons_of_pos _ (by simp [h])]
  rfl

theorem lookup_cons_of_neg (es : Record k v) {e : k × v} {key : k}
    (h : ¬ e.1 = key) : lookup (e :: es) key = lookup es key := by
  unfold lookup
  rw [List.find?_cons_of_neg _ (by simp [h])]

theorem lookup_set_self (r : Record k v) (key : k) (val : v) :
    (r.set key val).lookup key = some val := by
  induction r with
  | nil => exact lookup_cons_of_pos [] rfl
  | cons e es ih =>
    by_cases h : e.1 = key
    · simp only [set, if_pos h]
      exact lookup_cons_of_pos es rfl
    · simp only [set, if_neg h]
      rw [lookup_cons_of_neg _ h]
      exact ih

theorem lookup_set_ne (r : Record k v) (key key' : k) (val : v)
    (h : key' ≠ key) : (r.set key val).lookup key' = r.lookup key' := by
  induction r with
  | nil =>
    simp only [set]
    rw [lookup_cons_of_neg _ (fun hh => h hh.symm)]
  | cons e es ih =>
    by_cases he : e.1 = key
    · simp only [set, if_pos he]
      rw [lookup_cons_of_neg _ (fun hh => h hh.symm),
        lookup_cons_of_neg es (fun hh => h (by rw [← hh, he]))]
    · simp only [set, if_neg he]
      by_cases he' : e.1 = key'
      · rw [lookup_cons_of_pos _ he', lookup_cons_of_pos _ he']
      · rw [lookup_cons_of_neg _ he', lookup_cons_of_neg _ he']
        exact ih

theorem erase_cons_of_eq (es : Record k v) {e : k × v} {key : k}
    (h : e.1 = key) : erase (e :: es) key = erase es key := by
  simp [erase, List.filter_cons, h]

theorem erase_cons_of_ne (es : Record k v) {e : k × v} {key : k}
    (h : ¬ e.1 = key) : erase (e :: es) key = e :: erase es key := by
  simp [erase, List.filter_cons, h]

theorem lookup_erase (r : Record k v) (key key' : k) :
    (r.erase key).lookup key' = if key' = key then none else r.lookup key' := by
  induction r with
  | nil => simp [erase, lookup]
  | cons e es ih =>
    by_cases he : e.1 = key
    · rw [erase_cons_of_eq es he, ih]
      by_cases hk : key' = key
      · simp [hk]
      · rw [if_neg hk, if_neg hk,
          lookup_cons_of_neg es (fun hh => hk (by rw [← hh, he]))]
    · rw [erase_cons_of_ne es he]
      by_cases he' : e.1 = key'
      · have hk : ¬ key' = key := fun hh => he (by rw [he', hh])
        rw [if_neg hk, lookup_cons_of_pos _ he', lookup_cons_of_pos _ he']
      · rw [lookup_cons_of_neg _ he', lookup_cons_of_neg _ he', ih]

theorem lookup_eq_none_iff (r : Record k v) (key : k) :
    r.lookup key = none ↔ ∀ e ∈ r, ¬ e.1 = key := by
  simp [lookup, List.find?_eq_none]

theorem erase_subset (r : Record k v) (key : k) :
    ∀ e ∈ r.erase key, e ∈ r := fun _ he => List.mem_of_mem_filter he

omit [DecidableEq k] in
theorem values_subset_of_subset {r r' : Record k v}
    (h : ∀ e ∈ r', e ∈ r) : ∀ x ∈ r'.values, x ∈ r.values := by
  intro x hx
  obtain ⟨e, he, hex⟩ := List.mem_map.mp hx
  exact List.mem_map.mpr ⟨e, h e he, hex⟩

theorem lookup_isSome_of_mem {r : Record k v} {e : k × v} (he : e ∈ r) :
    (r.lookup e.1).isSome := by
  rcases hf : List.find? (fun x => decide (x.1 = e.1)) r with _ | f
  · rw [List.find?_eq_none] at hf
    exact absurd (by simp) (hf e he)
  · simp [lookup, hf]

end Record

/-! ## Vector store data model (`src/types.ts`)

ISO timestamp strings are modelled by their parsed epoch-millisecond value
(the `Int` that `new Date(s).getTime()` yields), since every operation on
them in the modelled code compares or subtracts those values. Passthrough
Zendesk fields not read by any modelled operation are omitted. -/

structure ZendeskArticle where
  id : Int
  title : String
  body : String
  html_url : String
  created_at : Int
  updated_at : Int
deriving Repr, DecidableEq

structure ArticleChunk where
  id : String
  articleId : Int
  title : String
  content : String
  chunkIndex : Nat
  totalChunks : Nat
  url : String
  createdAt : Int
  updatedAt : Int
deriving Repr, DecidableEq

structure Embedding where
  id : String
  articleChunkId : String
  vector : List ℝ
  model : String
  createdAt : Int

structure StoreMetadata where
  version : String
  createdAt : Int
  updatedAt : Int
  totalArticles : Nat
  totalChunks : Nat
  embeddingModel : String
  chunkSize : Nat
  chunkOverlap : Nat

structure VectorStore where
  articles : Record Int ZendeskArticle
  chunks : Record String ArticleChunk
  embeddings : Record String Embedding
  metadata : StoreMetadata

structure VectorSearchResult where
  chunk : ArticleChunk
  embedding : Embedding
  similarity : ℝ
  score : ℝ

structure SearchOptions where
  maxResults : Nat
  minSimilarity : ℝ
  includeMetadata : Bool
  boostRecent : Bool
  recentBoostFactor : ℝ

/-! ## VectorStoreService (`src/vectorstore.ts`)

The service state is the in-memory store plus the `isLoaded` flag. The
persisted file is abstracted as a `disk : Option VectorStore` parameter to
the operations that may trigger `load()`; a missing file and a corrupt file
both fall back to `createEmptyStore()`. `new Date().toISOString()` at the
various call sites is abstracted as a `now : Int` parameter. -/

structure VectorStoreService where
  vectorStore : VectorStore
  isLoaded : Bool

/-- `VectorStoreService.createEmptyStore`. -/
def createEmptyStore (now : Int) : VectorStore :=
  { articles := []
    chunks := []
    embeddings := []
    metadata :=
      { version := "1.0.0"
        createdAt := now
        updatedAt := now
        totalArticles := 0
        totalChunks := 0
        embeddingModel := ""
        chunkSize := 1000
        chunkOverlap := 200 } }

/-- The constructor: an empty store, not yet loaded. -/
def newService (now : Int) : VectorStoreService :=
  { vectorStore := createEmptyStore now, isLoaded := false }

namespace VectorStoreService

/-- `load()`: read the persisted store if present; a missing or corrupt
file degrades to an empty store; either way `isLoaded` becomes true. -/
def load (disk : Option VectorStore) (now : Int) (_svc : VectorStoreService) :
    VectorStoreService :=
  { vectorStore := disk.getD (createEmptyStore now), isLoaded := true }

/-- `save()`: fails when not loaded; otherwise recomputes the denormalized
counts and stamps `updatedAt` (the file write itself is outside the model). -/
def save (now : Int) (svc : VectorStoreService) :
    Except String VectorStoreService :=
  if svc.isLoaded = false then .error "Vector store not loaded"
  else .ok
    { svc with
      vectorStore :=
        { svc.vectorStore with
          metadata :=
            { svc.vectorStore.metadata with
              updatedAt := now
              totalArticles := svc.vectorStore.articles.length
              totalChunks := svc.vectorStore.chunks.length } } }

/-- `upsertData(...)`: load if needed, overwrite entries keyed by their
identifiers, update provenance metadata, then save. -/
def upsertData (disk : Option VectorStore) (now : Int)
    (articles : List ZendeskArticle) (chunks : List ArticleChunk)
    (embeddings : List Embedding) (embeddingModel : String)
    (chunkSize chunkOverlap : Nat) (svc : VectorStoreService) :
    Except String VectorStoreService :=
  save now
    { (if svc.isLoaded then svc else load disk now svc) with
      vectorStore :=
        { articles := articles.foldl (fun m a => m.set a.id a)
            (if svc.isLoaded then svc else load disk now svc).vectorStore.articles
          chunks := chunks.foldl (fun m c => m.set c.id c)
            (if svc.isLoaded then svc else load disk now svc).vectorStore.chunks
          embeddings := embeddings.foldl (fun m e => m.set e.id e)
            (if svc.isLoaded then svc else load disk now svc).vectorStore.embeddings
          metadata :=
            { (if svc.isLoaded then svc else load disk now svc).vectorStore.metadata with
              embeddingModel := embeddingModel
              chunkSize := chunkSize
              chunkOverlap := chunkOverlap } } }

/-- `getArticle(articleId)`: fail fast when not loaded, else
`articles[articleId] || null`. -/
def getArticle (svc : VectorStoreService) (articleId : Int) :
    Except String (Option ZendeskArticle) :=
  if svc.isLoaded = false then .error "Vector store not loaded"
  else .ok (svc.vectorStore.articles.lookup articleId)

/-- `getChunk(chunkId)`: fail fast when not loaded, else
`chunks[chunkId] || null`. -/
def getChunk (svc : VectorStoreService) (chunkId : String) :
    Except String (Option ArticleChunk) :=
  if svc.isLoaded = false then .error "Vector store not loaded"
  else .ok (svc.vectorStore.chunks.lookup chunkId)

/-- `getArticleChunks(articleId)`: fail fast when not loaded, else filter
the chunk values by owning article id. -/
def getArticleChunks (svc : VectorStoreService) (articleId : Int) :
    Except String (List ArticleChunk) :=
  if svc.isLoaded = false then .error "Vector store not loaded"
  else .ok (svc.vectorStore.chunks.values.filter
    (fun c => decide (c.articleId = articleId)))

structure StoreStats where
  totalArticles : Nat
  totalChunks : Nat
  totalEmbeddings : Nat
  embeddingModel : String
  lastUpdated : Int
deriving Repr, DecidableEq

/-- `getStats()`: fail fast when not loaded, else report live counts and
stored metadata. -/
def getStats (svc : VectorStoreService) : Except String StoreStats :=
  if svc.isLoaded = false then .error "Vector store not loaded"
  else .ok
    { totalArticles := svc.vectorStore.articles.length
      totalChunks := svc.vectorStore.chunks.length
      totalEmbeddings := svc.vectorStore.embeddings.length
      embeddingModel := svc.vectorStore.metadata.embeddingModel
      lastUpdated := svc.vectorStore.metadata.updatedAt }

/-- `clear()`: replace the store with an empty one and save (note: `clear`
does not load first, so `save` rejects it on an unloaded service). -/
def clear (now : Int) (svc : VectorStoreService) :
    Except String VectorStoreService :=
  save now { svc with vectorStore := createEmptyStore now }

/-- `hasArticle(articleId)`: returns `false` when not loaded (it does not
throw), else tests `articleId in articles`. -/
def hasArticle (svc : VectorStoreService) (articleId : Int) :
    Except String Bool :=
  if svc.isLoaded = false then .ok false
  else .ok (svc.vectorStore.articles.lookup articleId).isSome

/-- One iteration of the `removeArticles` loop: delete the article, then
delete every chunk whose `articleId` matches together with its derived
embedding id `chunkId + "_embedding"`. The JS loop body interleaves the two
deletes per chunk; since `chunksToRemove` is computed before the loop and
the two folds touch disjoint maps, two passes over the same list are
equivalent. -/
def removeStep (st : VectorStore) (id : Int) : VectorStore :=
  { st with
    articles := st.articles.erase id
    chunks := (st.chunks.values.filter (fun c => decide (c.articleId = id))).foldl
      (fun m c => m.erase c.id) st.chunks
    embeddings := (st.chunks.values.filter (fun c => decide (c.articleId = id))).foldl
      (fun m c => m.erase (c.id ++ "_embedding")) st.embeddings }

/-- `removeArticles(articleIds)`: load if needed, run the removal loop,
then save. -/
def removeArticles (disk : Option VectorStore) (now : Int)
    (articleIds : List Int) (svc : VectorStoreService) :
    Except String VectorStoreService :=
  save now
    { (if svc.isLoaded then svc else load disk now svc) with
      vectorStore := articleIds.foldl removeStep
        (if svc.isLoaded then svc else load disk now svc).vectorStore }

end VectorStoreService

/-! ## Record: erasing a batch of derived keys -/

namespace Record

variable {k v : Type} [DecidableEq k]

theorem lookup_foldl_erase {β : Type} (f : β → k) (L : List β) (m : Record k v)
    (key : k) :
    (L.foldl (fun m c => Record.erase m (f c)) m).lookup key =
      if key ∈ L.map f then none else m.lookup key := by
  induction L generalizing m with
  | nil => simp
  | cons c cs ih =>
    simp only [List.foldl_cons, List.map_cons]
    rw [ih]
    by_cases hk : key ∈ cs.map f
    · rw [if_pos hk, if_pos (List.mem_cons_of_mem _ hk)]
    · rw [if_neg hk, Record.lookup_erase]
      by_cases hc : key = f c
      · rw [if_pos hc, if_pos (by rw [hc]; exact List.mem_cons_self _ _)]
      · rw [if_neg hc, if_neg (by
          intro hmem
          rcases List.mem_cons.mp hmem with h | h
          · exact hc h
          · exact hk h)]

theorem mem_foldl_erase_of_subset {β : Type} (f : β → k) (L : List β) :
    ∀ (m : Record k v) (e : k × v),
      e ∈ L.foldl (fun m c => Record.erase m (f c)) m → e ∈ m := by
  induction L with
  | nil => intro m e he; simpa using he
  | cons c cs ih =>
    intro m e he
    exact Record.erase_subset m (f c) e (ih (m.erase (f c)) e he)

theorem mem_foldl_erase_of_not_mem {β : Type} (f : β → k) (L : List β) :
    ∀ (m : Record k v) (e : k × v), e ∈ m → e.1 ∉ L.map f →
      e ∈ L.foldl (fun m c => Record.erase m (f c)) m := by
  induction L with
  | nil => intro m e he _; simpa using he
  | cons c cs ih =>
    intro m e he hne
    simp only [List.foldl_cons]
    refine ih (m.erase (f c)) e ?_ (fun h => hne (List.mem_cons_of_mem _ h))
    refine List.mem_filter.mpr ⟨he, ?_⟩
    simp only [decide_eq_true_eq]
    intro h
    exact hne (List.mem_map.mpr ⟨c, List.mem_cons_self _ _, h.symm⟩)

end Record

/-! ## Claim C5: accessors before load() -/

/-- C5 counterexample: the claim says `hasArticle` fails fast with a
not-loaded error before `load()`; in fact it returns the value `false`
(an early `return false`, not a `throw`). -/
theorem hasArticle_not_loaded_cex :
    (newService 0).isLoaded = false ∧
    (newService 0).hasArticle 1 = .ok false ∧
    (newService 0).hasArticle 1 ≠ .error "Vector store not loaded" := by
  refine ⟨rfl, rfl, fun h => Except.noConfusion h⟩

/-- C5 (amended): before `load()`, the accessors `getArticle`, `getChunk`,
`getArticleChunks` and `getStats` fail fast with the not-loaded error;
`hasArticle` instead returns the value `false` without failing. -/
theorem accessors_fail_when_not_loaded (svc : VectorStoreService)
    (h : svc.isLoaded = false) (articleId : Int) (chunkId : String) :
    svc.getArticle articleId = .error "Vector store not loaded" ∧
    svc.getChunk chunkId = .error "Vector store not loaded" ∧
    svc.getArticleChunks articleId = .error "Vector store not loaded" ∧
    svc.getStats = .error "Vector store not loaded" ∧
    svc.hasArticle articleId = .ok false := by
  unfold VectorStoreService.getArticle VectorStoreService.getChunk
    VectorStoreService.getArticleChunks VectorStoreService.getStats
    VectorStoreService.hasArticle
  rw [h]
  exact ⟨rfl, rfl, rfl, rfl, rfl⟩

/-- C5 witness: the accessor contract evaluated on a fresh, unloaded
service. -/
theorem accessors_fail_when_not_loaded_witness :
    (newService 0).isLoaded = false ∧
    ((newService 0).getArticle 1 = .error "Vector store not loaded" ∧
     (newService 0).getChunk "c" = .error "Vector store not loaded" ∧
     (newService 0).getArticleChunks 1 = .error "Vector store not loaded" ∧
     (newService 0).getStats = .error "Vector store not loaded" ∧
     (newService 0).hasArticle 1 = .ok false) :=
  ⟨rfl, accessors_fail_when_not_loaded (newService 0) rfl 1 "c"⟩

/-! ## Claim C10: denormalized counts after save -/

theorem save_ok_counts (now : Int) (svc svc' : VectorStoreService)
    (h : VectorStoreService.save now svc = .ok svc') :
    svc'.vectorStore.metadata.totalArticles = svc'.vectorStore.articles.length ∧
    svc'.vectorStore.metadata.totalChunks = svc'.vectorStore.chunks.length := by
  unfold VectorStoreService.save at h
  split at h
  · cases h
  · injection h with h
    subst h
    exact ⟨rfl, rfl⟩

/-- C10: after every successful mutating operation that persists the store
(`upsertData`, `removeArticles`, `clear`), the denormalized metadata counts
equal the actual map sizes, because `save()` recomputes both before
writing. -/
theorem mutators_counts_invariant (disk : Option VectorStore) (now : Int)
    (svc svc' : VectorStoreService) (articles : List ZendeskArticle)
    (chunks : List ArticleChunk) (embeddings : List Embedding)
    (em : String) (cs co : Nat) (ids : List Int) :
    (VectorStoreService.upsertData disk now articles chunks embeddings em cs co svc
        = .ok svc' →
      svc'.vectorStore.metadata.totalArticles = svc'.vectorStore.articles.length ∧
      svc'.vectorStore.metadata.totalChunks = svc'.vectorStore.chunks.length) ∧
    (VectorStoreService.removeArticles disk now ids svc = .ok svc' →
      svc'.vectorStore.metadata.totalArticles = svc'.vectorStore.articles.length ∧
      svc'.vectorStore.metadata.totalChunks = svc'.vectorStore.chunks.length) ∧
    (VectorStoreService.clear now svc = .ok svc' →
      svc'.vectorStore.metadata.totalArticles = svc'.vectorStore.articles.length ∧
      svc'.vectorStore.metadata.totalChunks = svc'.vectorStore.chunks.length) := by
  refine ⟨fun h => ?_, fun h => ?_, fun h => ?_⟩
  · exact save_ok_counts now _ svc' h
  · exact save_ok_counts now _ svc' h
  · exact save_ok_counts now _ svc' h

/-- C10 witness: `clear` on a loaded service yields matching counts. -/
theorem mutators_counts_invariant_witness :
    ∃ s', VectorStoreService.clear 5 (VectorStoreService.load none 0 (newService 0))
        = .ok s' ∧
      s'.vectorStore.metadata.totalArticles = s'.vectorStore.articles.length ∧
      s'.vectorStore.metadata.totalChunks = s'.vectorStore.chunks.length :=
  ⟨_, rfl,
    (mutators_counts_invariant none 5
      (VectorStoreService.load none 0 (newService 0)) _ [] [] [] "" 0 0 []).2.2 rfl⟩

/-! ## Claim C6: removeArticles cascades -/

/-- The store invariant the code maintains for the chunks map: every entry
is keyed by its chunk's own id (`chunks[chunk.id] = chunk`). -/
def WellKeyedChunks (st : VectorStore) : Prop :=
  ∀ e ∈ st.chunks, (e.2 : ArticleChunk).id = e.1

instance (st : VectorStore) : Decidable (WellKeyedChunks st) :=
  inferInstanceAs (Decidable (∀ e ∈ st.chunks, (e.2 : ArticleChunk).id = e.1))

namespace VectorStoreService

theorem removeStep_articles_lookup (st : VectorStore) (id key : Int) :
    ((removeStep st id).articles).lookup key =
      if key = id then none else st.articles.lookup key :=
  Record.lookup_erase st.articles id key

theorem removeStep_chunks_lookup (st : VectorStore) (id : Int) (key : String) :
    ((removeStep st id).chunks).lookup key =
      if key ∈ (st.chunks.values.filter
          (fun c => decide (c.articleId = id))).map (fun c => c.id)
      then none else st.chunks.lookup key :=
  Record.lookup_foldl_erase _ _ _ _

theorem removeStep_embeddings_lookup (st : VectorStore) (id : Int) (key : String) :
    ((removeStep st id).embeddings).lookup key =
      if key ∈ (st.chunks.values.filter
          (fun c => decide (c.articleId = id))).map (fun c => c.id ++ "_embedding")
      then none else st.embeddings.lookup key :=
  Record.lookup_foldl_erase _ _ _ _

theorem removeStep_chunks_subset (st : VectorStore) (id : Int) :
    ∀ e ∈ (removeStep st id).chunks, e ∈ st.chunks :=
  fun e he => Record.mem_foldl_erase_of_subset _ _ _ e he

theorem removeStep_wellKeyed (st : VectorStore) (id : Int)
    (h : WellKeyedChunks st) : WellKeyedChunks (removeStep st id) :=
  fun e he => h e (removeStep_chunks_subset st id e he)

theorem mem_chunks_of_mem_values {st : VectorStore} (h : WellKeyedChunks st)
    {c : ArticleChunk} (hc : c ∈ st.chunks.values) : (c.id, c) ∈ st.chunks := by
  obtain ⟨e, he, hec⟩ := List.mem_map.mp hc
  have hk := h e he
  obtain ⟨k, x⟩ := e
  dsimp only at hec hk
  subst hec
  rw [hk]
  exact he

theorem removeStep_no_chunk (st : VectorStore) (id : Int)
    (hwk : WellKeyedChunks st) :
    ∀ c ∈ (removeStep st id).chunks.values, ¬ c.articleId = id := by
  intro c hc hcid
  have hcv : c ∈ st.chunks.values :=
    Record.values_subset_of_subset (removeStep_chunks_subset st id) c hc
  have hment : (c.id, c) ∈ (removeStep st id).chunks :=
    mem_chunks_of_mem_values (removeStep_wellKeyed st id hwk) hc
  have hsome : (((removeStep st id).chunks).lookup c.id).isSome :=
    Record.lookup_isSome_of_mem hment
  rw [removeStep_chunks_lookup, if_pos
    (List.mem_map.mpr ⟨c, List.mem_filter.mpr ⟨hcv, by simp [hcid]⟩, rfl⟩)] at hsome
  cases hsome

theorem removeStep_chunk_survives (st : VectorStore) (id : Int)
    (hwk : WellKeyedChunks st) {c : ArticleChunk} (hc : c ∈ st.chunks.values)
    (hne : c.id ∉ (st.chunks.values.filter
      (fun c => decide (c.articleId = id))).map (fun c => c.id)) :
    c ∈ (removeStep st id).chunks.values := by
  have hment := mem_chunks_of_mem_values hwk hc
  have hmem : (c.id, c) ∈ (removeStep st id).chunks :=
    Record.mem_foldl_erase_of_not_mem _ _ _ _ hment hne
  exact List.mem_map.mpr ⟨(c.id, c), hmem, rfl⟩

theorem removeAll_articles_none (ids : List Int) :
    ∀ (st : VectorStore) (key : Int), st.articles.lookup key = none →
      ((ids.foldl removeStep st).articles).lookup key = none := by
  induction ids with
  | nil => intro st key h; simpa using h
  | cons i is ih =>
    intro st key h
    simp only [List.foldl_cons]
    apply ih
    rw [removeStep_articles_lookup]
    split
    · rfl
    · exact h

theorem removeAll_articles_erased (ids : List Int) :
    ∀ (st : VectorStore) (id : Int), id ∈ ids →
      ((ids.foldl removeStep st).articles).lookup id = none := by
  induction ids with
  | nil => intro st id h; simp at h
  | cons i is ih =>
    intro st id h
    simp only [List.foldl_cons]
    rcases List.mem_cons.mp h with h | h
    · subst h
      apply removeAll_articles_none
      rw [removeStep_articles_lookup, if_pos rfl]
    · exact ih _ id h

theorem removeAll_chunks_subset (ids : List Int) :
    ∀ (st : VectorStore) (e : String × ArticleChunk),
      e ∈ (ids.foldl removeStep st).chunks → e ∈ st.chunks := by
  induction ids with
  | nil => intro st e he; simpa using he
  | cons i is ih =>
    intro st e he
    simp only [List.foldl_cons] at he
    exact removeStep_chunks_subset st i e (ih (removeStep st i) e he)

theorem removeAll_no_chunk (ids : List Int) :
    ∀ (st : VectorStore), WellKeyedChunks st →
      ∀ c ∈ (ids.foldl removeStep st).chunks.values, ∀ id ∈ ids,
        ¬ c.articleId = id := by
  induction ids with
  | nil => intro st _ c _ id h; simp at h
  | cons i is ih =>
    intro st hwk c hc id hid
    simp only [List.foldl_cons] at hc
    rcases List.mem_cons.mp hid with h | h
    · have hstep : c ∈ (removeStep st i).chunks.values :=
        Record.values_subset_of_subset (removeAll_chunks_subset is _) c hc
      rw [h]
      exact removeStep_no_chunk st i hwk c hstep
    · exact ih (removeStep st i) (removeStep_wellKeyed st i hwk) c hc id h

theorem removeAll_embeddings_none (ids : List Int) :
    ∀ (st : VectorStore) (key : String), st.embeddings.lookup key = none →
      ((ids.foldl removeStep st).embeddings).lookup key = none := by
  induction ids with
  | nil => intro st key h; simpa using h
  | cons i is ih =>
    intro st key h
    simp only [List.foldl_cons]
    apply ih
    rw [removeStep_embeddings_lookup]
    split
    · rfl
    · exact h

theorem removeAll_embedding_erased (ids : List Int) :
    ∀ (st : VectorStore), WellKeyedChunks st →
      ∀ c ∈ st.chunks.values, c.articleId ∈ ids →
        ((ids.foldl removeStep st).embeddings).lookup (c.id ++ "_embedding")
          = none := by
  induction ids with
  | nil => intro st _ c _ h; simp at h
  | cons i is ih =>
    intro st hwk c hc hid
    simp only [List.foldl_cons]
    rcases List.mem_cons.mp hid with h | h
    · apply removeAll_embeddings_none
      rw [removeStep_embeddings_lookup, if_pos
        (List.mem_map.mpr ⟨c, List.mem_filter.mpr ⟨hc, by simp [h]⟩, rfl⟩)]
    · by_cases hkey : c.id ∈ (st.chunks.values.filter
        (fun c => decide (c.articleId = i))).map (fun c => c.id)
      · -- a chunk with the same id (hence the same derived embedding id)
        -- is being removed in this step
        apply removeAll_embeddings_none
        obtain ⟨x, hx, hxid⟩ := List.mem_map.mp hkey
        rw [removeStep_embeddings_lookup, if_pos
          (List.mem_map.mpr ⟨x, hx, by rw [hxid]⟩)]
      · exact ih (removeStep st i) (removeStep_wellKeyed st i hwk) c
          (removeStep_chunk_survives st i hwk hc hkey) h

end VectorStoreService

/-- C6: `removeArticles(ids)` on a loaded, well-keyed store removes every
listed article, every chunk whose `articleId` is listed, and for each such
chunk the embedding with the derived id `chunkId + "_embedding"`, then
saves. -/
theorem removeArticles_cascades (disk : Option VectorStore) (now : Int)
    (ids : List Int) (svc svc' : VectorStoreService)
    (hl : svc.isLoaded = true) (hwk : WellKeyedChunks svc.vectorStore)
    (hok : VectorStoreService.removeArticles disk now ids svc = .ok svc') :
    (∀ id ∈ ids, svc'.vectorStore.articles.lookup id = none) ∧
    (∀ c ∈ svc'.vectorStore.chunks.values, ∀ id ∈ ids, ¬ c.articleId = id) ∧
    (∀ c ∈ svc.vectorStore.chunks.values, c.articleId ∈ ids →
      svc'.vectorStore.embeddings.lookup (c.id ++ "_embedding") = none) := by
  unfold VectorStoreService.removeArticles at hok
  rw [hl] at hok
  simp only [if_true] at hok
  unfold VectorStoreService.save at hok
  split at hok
  · cases hok
  · injection hok with hok
    subst hok
    refine ⟨?_, ?_, ?_⟩
    · intro id hid
      exact VectorStoreService.removeAll_articles_erased ids svc.vectorStore id hid
    · intro c hc id hid
      exact VectorStoreService.removeAll_no_chunk ids svc.vectorStore hwk c hc id hid
    · intro c hc hcid
      exact VectorStoreService.removeAll_embedding_erased ids svc.vectorStore hwk c hc hcid

/-! ### Concrete scenario data: document 1 with 2 chunks and 2 embeddings -/

def wsvcLoaded : VectorStoreService := VectorStoreService.load none 0 (newService 0)

def warticle : ZendeskArticle := ⟨1, "t", "body", "url", 0, 0⟩

def wchunk0 : ArticleChunk := ⟨"article_1_chunk_0", 1, "t", "x", 0, 2, "url", 0, 0⟩

def wchunk1 : ArticleChunk := ⟨"article_1_chunk_1", 1, "t", "y", 1, 2, "url", 0, 0⟩

def wemb0 : Embedding := ⟨"article_1_chunk_0_embedding", "article_1_chunk_0", [], "m", 0⟩

def wemb1 : Embedding := ⟨"article_1_chunk_1_embedding", "article_1_chunk_1", [], "m", 0⟩

/-- The store after upserting document 1 with its 2 chunks and 2 embeddings. -/
def wsvcUpserted : VectorStoreService :=
  match VectorStoreService.upsertData none 0 [warticle] [wchunk0, wchunk1]
      [wemb0, wemb1] "m" 1000 200 wsvcLoaded with
  | .ok s => s
  | .error _ => newService 0

/-- C6 witness: the spec scenario — after upserting document 1 with 2 chunks
and 2 embeddings, `removeArticles([1])` leaves 0 articles, 0 chunks,
0 embeddings. -/
theorem removeArticles_cascades_witness :
    wsvcUpserted.isLoaded = true ∧
    WellKeyedChunks wsvcUpserted.vectorStore ∧
    wsvcUpserted.vectorStore.articles.length = 1 ∧
    wsvcUpserted.vectorStore.chunks.length = 2 ∧
    wsvcUpserted.vectorStore.embeddings.length = 2 ∧
    ∃ s', VectorStoreService.removeArticles none 0 [1] wsvcUpserted = .ok s' ∧
      s'.vectorStore.articles.length = 0 ∧
      s'.vectorStore.chunks.length = 0 ∧
      s'.vectorStore.embeddings.length = 0 ∧
      s'.vectorStore.articles.lookup 1 = none := by
  refine ⟨rfl, by decide, rfl, rfl, rfl, ?_⟩
  refine ⟨_, rfl, rfl, rfl, rfl, ?_⟩
  exact (removeArticles_cascades none 0 [1] wsvcUpserted _ rfl (by decide) rfl).1 1
    (List.mem_singleton.mpr rfl)

/-! ## Claim C7: needsReindexing is a pure diff -/

structure ReindexResult where
  needsReindex : Bool
  newArticles : List ZendeskArticle
  updatedArticles : List ZendeskArticle
  deletedArticleIds : List Int
deriving Repr, DecidableEq

/-- Iterating a JS `Set` built from a list (via `Array.from`) yields the
distinct elements, first occurrences kept, in insertion order. -/
def jsDedupAux {α : Type} [DecidableEq α] (seen : List α) : List α → List α
  | [] => []
  | a :: as =>
    if a ∈ seen then jsDedupAux seen as else a :: jsDedupAux (a :: seen) as

def jsDedup {α : Type} [DecidableEq α] (l : List α) : List α := jsDedupAux [] l

theorem jsDedupAux_subset {α : Type} [DecidableEq α] :
    ∀ (l : List α) (seen : List α), ∀ x ∈ jsDedupAux seen l, x ∈ l := by
  intro l
  induction l with
  | nil => intro seen x hx; simpa [jsDedupAux] using hx
  | cons a as ih =>
    intro seen x hx
    unfold jsDedupAux at hx
    split at hx
    · exact List.mem_cons_of_mem _ (ih seen x hx)
    · rcases List.mem_cons.mp hx with h | h
      · exact h ▸ List.mem_cons_self _ _
      · exact List.mem_cons_of_mem _ (ih (a :: seen) x h)

theorem jsDedup_subset {α : Type} [DecidableEq α] {l : List α} {x : α}
    (hx : x ∈ jsDedup l) : x ∈ l :=
  jsDedupAux_subset l [] x hx

namespace VectorStoreService

/-- The body of `needsReindexing`'s `for (const article of articles)` loop:
an article with no stored counterpart is pushed to `newArticles`; one whose
`updated_at` parses strictly newer than the stored one is pushed to
`updatedArticles`; otherwise it is skipped. -/
def classifyStep (existing : Record Int ZendeskArticle)
    (acc : List ZendeskArticle × List ZendeskArticle) (a : ZendeskArticle) :
    List ZendeskArticle × List ZendeskArticle :=
  match existing.lookup a.id with
  | none => (acc.1 ++ [a], acc.2)
  | some e => if e.updated_at < a.updated_at then (acc.1, acc.2 ++ [a]) else acc

/-- `needsReindexing(articles)`: when not loaded, everything is new;
otherwise partition the input into new/updated, compute the stored ids
absent from the input (via a `Set` of keys), and flag work iff any list is
non-empty. The return type shows this is a pure diff: the service state is
not part of the result. -/
def needsReindexing (articles : List ZendeskArticle)
    (svc : VectorStoreService) : ReindexResult :=
  if svc.isLoaded = false then
    { needsReindex := true
      newArticles := articles
      updatedArticles := []
      deletedArticleIds := [] }
  else
    { needsReindex :=
        decide (0 < (articles.foldl (classifyStep svc.vectorStore.articles)
          ([], [])).1.length) ||
        decide (0 < (articles.foldl (classifyStep svc.vectorStore.articles)
          ([], [])).2.length) ||
        decide (0 < ((jsDedup svc.vectorStore.articles.keys).filter
          (fun id => !(articles.any (fun a => decide (a.id = id))))).length)
      newArticles :=
        (articles.foldl (classifyStep svc.vectorStore.articles) ([], [])).1
      updatedArticles :=
        (articles.foldl (classifyStep svc.vectorStore.articles) ([], [])).2
      deletedArticleIds :=
        (jsDedup svc.vectorStore.articles.keys).filter
          (fun id => !(articles.any (fun a => decide (a.id = id)))) }

theorem foldl_classifyStep (existing : Record Int ZendeskArticle) :
    ∀ (articles : List ZendeskArticle) (accN accU : List ZendeskArticle),
      articles.foldl (classifyStep existing) (accN, accU) =
        (accN ++ articles.filter (fun a => (existing.lookup a.id).isNone),
         accU ++ articles.filter (fun a =>
           match existing.lookup a.id with
           | some e => decide (e.updated_at < a.updated_at)
           | none => false)) := by
  intro articles
  induction articles with
  | nil => intro accN accU; simp
  | cons a as ih =>
    intro accN accU
    simp only [List.foldl_cons, List.filter_cons]
    cases hl : existing.lookup a.id with
    | none =>
      have hstep : classifyStep existing (accN, accU) a = (accN ++ [a], accU) := by
        unfold classifyStep
        rw [hl]
      rw [hstep, ih]
      simp [hl, List.append_assoc]
    | some e =>
      by_cases hu : e.updated_at < a.updated_at
      · have hstep : classifyStep existing (accN, accU) a = (accN, accU ++ [a]) := by
          unfold classifyStep
          rw [hl]
          simp [hu]
        rw [hstep, ih]
        simp [hl, hu, List.append_assoc]
      · have hstep : classifyStep existing (accN, accU) a = (accN, accU) := by
          unfold classifyStep
          rw [hl]
          simp [hu]
        rw [hstep, ih]
        simp [hl, hu]

end VectorStoreService

/-- C7: on a loaded store, `needsReindexing` is a pure diff: `newArticles`
are the input articles whose id is absent from the store, `updatedArticles`
those whose `updated_at` is strictly newer than the stored one,
`deletedArticleIds` the stored ids absent from the input, and
`needsReindex` is true iff any of the three lists is non-empty; on an input
equal to the stored set (same ids and timestamps) everything is empty and
the flag is false. (The model's return type carries no store state, which
is the non-mutation part of the claim.) -/
theorem needsReindexing_diff (articles : List ZendeskArticle)
    (svc : VectorStoreService) (hl : svc.isLoaded = true) :
    (VectorStoreService.needsReindexing articles svc).newArticles =
      articles.filter (fun a => (svc.vectorStore.articles.lookup a.id).isNone) ∧
    (VectorStoreService.needsReindexing articles svc).updatedArticles =
      articles.filter (fun a =>
        match svc.vectorStore.articles.lookup a.id with
        | some e => decide (e.updated_at < a.updated_at)
        | none => false) ∧
    (VectorStoreService.needsReindexing articles svc).deletedArticleIds =
      (jsDedup svc.vectorStore.articles.keys).filter
        (fun id => !(articles.any (fun a => decide (a.id = id)))) ∧
    ((VectorStoreService.needsReindexing articles svc).needsReindex = true ↔
      (VectorStoreService.needsReindexing articles svc).newArticles ≠ [] ∨
      (VectorStoreService.needsReindexing articles svc).updatedArticles ≠ [] ∨
      (VectorStoreService.needsReindexing articles svc).deletedArticleIds ≠ []) ∧
    ((∀ a ∈ articles, ∃ e, svc.vectorStore.articles.lookup a.id = some e ∧
        e.updated_at = a.updated_at) →
      (∀ id ∈ svc.vectorStore.articles.keys, ∃ a ∈ articles, a.id = id) →
      (VectorStoreService.needsReindexing articles svc).needsReindex = false ∧
      (VectorStoreService.needsReindexing articles svc).newArticles = [] ∧
      (VectorStoreService.needsReindexing articles svc).updatedArticles = [] ∧
      (VectorStoreService.needsReindexing articles svc).deletedArticleIds = []) := by
  unfold VectorStoreService.needsReindexing
  simp only [hl]
  rw [if_neg (by simp : ¬ (true = false))]
  rw [VectorStoreService.foldl_classifyStep]
  simp only [List.nil_append]
  refine ⟨by simp, by simp, by simp, ?_, ?_⟩
  · simp only [Bool.or_eq_true, decide_eq_true_eq, List.length_pos]
    exact or_assoc
  · intro hsame hcover
    have hnew : articles.filter
        (fun a => (svc.vectorStore.articles.lookup a.id).isNone) = [] := by
      rw [List.filter_eq_nil_iff]
      intro a ha
      obtain ⟨e, he, _⟩ := hsame a ha
      simp [he]
    have hupd : articles.filter (fun a =>
        match svc.vectorStore.articles.lookup a.id with
        | some e => decide (e.updated_at < a.updated_at)
        | none => false) = [] := by
      rw [List.filter_eq_nil_iff]
      intro a ha
      obtain ⟨e, he, heq⟩ := hsame a ha
      simp [he, heq]
    have hdel : (jsDedup svc.vectorStore.articles.keys).filter
        (fun id => !(articles.any (fun a => decide (a.id = id)))) = [] := by
      rw [List.filter_eq_nil_iff]
      intro id hid
      obtain ⟨a, ha, haid⟩ := hcover id (jsDedup_subset hid)
      simp only [Bool.not_eq_true', List.any_eq_false, decide_eq_true_eq]
      intro h
      exact absurd (h a ha) (by simp [haid])
    rw [hnew, hupd, hdel]
    simp

/-- C7 witness: the store holding exactly document 1 diffed against the
same document reports no work. -/
theorem needsReindexing_diff_witness :
    wsvcUpserted.isLoaded = true ∧
    (VectorStoreService.needsReindexing [warticle] wsvcUpserted).needsReindex
      = false ∧
    (VectorStoreService.needsReindexing [warticle] wsvcUpserted).newArticles
      = [] ∧
    (VectorStoreService.needsReindexing [warticle] wsvcUpserted).updatedArticles
      = [] ∧
    (VectorStoreService.needsReindexing [warticle] wsvcUpserted).deletedArticleIds
      = [] := by
  refine ⟨rfl, ?_⟩
  refine (needsReindexing_diff [warticle] wsvcUpserted rfl).2.2.2.2 ?_ ?_
  · intro a ha
    rw [List.mem_singleton.mp ha]
    exact ⟨warticle, rfl, rfl⟩
  · intro id hid
    have h1 : id = 1 := by
      have : wsvcUpserted.vectorStore.articles.keys = [1] := rfl
      rw [this] at hid
      exact List.mem_singleton.mp hid
    exact ⟨warticle, List.mem_singleton.mpr rfl, by rw [h1]; rfl⟩

/-! ## Claims C1 and C9: search

`cosineSimilarity` needs a square root, so the search pipeline lives over
`ℝ` and is `noncomputable`; witnesses evaluate it by `simp` on concrete
one-dimensional vectors. -/

/-- `cosineSimilarity(vectorA, vectorB)`: throws on length mismatch,
returns 0 (not an error) when either magnitude is zero, else
`dot / (sqrt normA * sqrt normB)`. -/
noncomputable def cosineSimilarity (a b : List ℝ) : Except String ℝ :=
  if a.length ≠ b.length then .error "Vectors must have the same length"
  else if Real.sqrt (a.foldl (fun s x => s + x * x) 0) *
      Real.sqrt (b.foldl (fun s x => s + x * x) 0) = 0 then .ok 0
  else .ok (((a.zip b).foldl (fun s p => s + p.1 * p.2) 0) /
    (Real.sqrt (a.foldl (fun s x => s + x * x) 0) *
     Real.sqrt (b.foldl (fun s x => s + x * x) 0)))

/-- `getArticleAgeInDays(updatedAt)`:
`Math.ceil(|now - updatedAt| / (1000*60*60*24))` over epoch milliseconds. -/
def getArticleAgeInDays (now updatedAt : Int) : Int :=
  ⌈(((now - updatedAt).natAbs : ℚ) / (1000 * 60 * 60 * 24) : ℚ)⌉

/-- The recency-boosted ranking score:
`score = similarity × max(1, recentBoostFactor − ageInDays / 365)` when
`boostRecent` is set, the raw similarity otherwise. -/
noncomputable def boostedScore (now : Int) (opts : SearchOptions)
    (chunk : ArticleChunk) (similarity : ℝ) : ℝ :=
  if opts.boostRecent then
    similarity * max 1 (opts.recentBoostFactor -
      ((getArticleAgeInDays now chunk.updatedAt : Int) : ℝ) / 365)
  else similarity

/-- The `for (const embedding of embeddings)` loop of `search`: compute the
raw cosine similarity (a mismatch throws out of the whole call), keep the
embedding only when `similarity >= options.minSimilarity` and its chunk
exists, and attach the boosted ranking score. -/
noncomputable def searchScan (now : Int) (chunks : Record String ArticleChunk)
    (q : List ℝ) (opts : SearchOptions) :
    List Embedding → Except String (List VectorSearchResult)
  | [] => .ok []
  | e :: es =>
    match cosineSimilarity q e.vector with
    | .error msg => .error msg
    | .ok similarity =>
      match searchScan now chunks q opts es with
      | .error msg => .error msg
      | .ok rest =>
        if opts.minSimilarity ≤ similarity then
          match chunks.lookup e.articleChunkId with
          | some chunk =>
            .ok (⟨chunk, e, similarity, boostedScore now opts chunk similarity⟩ :: rest)
          | none => .ok rest
        else .ok rest

namespace VectorStoreService

/-- `search(queryEmbedding, options)`: load if needed, scan every stored
embedding, sort descending by score (JS `sort` is stable; `mergeSort` with
`b.score ≤ a.score` matches the comparator `b.score - a.score`), and keep
the first `maxResults`. -/
noncomputable def search (disk : Option VectorStore) (now : Int)
    (svc : VectorStoreService) (q : List ℝ) (opts : SearchOptions) :
    Except String (List VectorSearchResult) :=
  match searchScan now
      (if svc.isLoaded then svc else load disk now svc).vectorStore.chunks q opts
      (if svc.isLoaded then svc else load disk now svc).vectorStore.embeddings.values with
  | .error m => .error m
  | .ok results =>
    .ok ((results.mergeSort (fun a b => decide (b.score ≤ a.score))).take
      opts.maxResults)

end VectorStoreService

theorem searchScan_mem (now : Int) (chunks : Record String ArticleChunk)
    (q : List ℝ) (opts : SearchOptions) :
    ∀ (es : List Embedding) (res : List VectorSearchResult),
      searchScan now chunks q opts es = .ok res → ∀ r ∈ res,
        opts.minSimilarity ≤ r.similarity ∧
        r.score = boostedScore now opts r.chunk r.similarity := by
  intro es
  induction es with
  | nil =>
    intro res h r hr
    unfold searchScan at h
    injection h with h
    rw [← h] at hr
    cases hr
  | cons e es ih =>
    intro res h r hr
    unfold searchScan at h
    split at h
    · cases h
    · next similarity _ =>
      split at h
      · cases h
      · next rest hrest =>
        split at h
        · next hsim =>
          split at h
          · next chunk _ =>
            injection h with h
            rw [← h] at hr
            rcases List.mem_cons.mp hr with hhead | htail
            · subst hhead
              exact ⟨hsim, rfl⟩
            · exact ih rest hrest r htail
          · injection h with h
            rw [← h] at hr
            exact ih rest hrest r hr
        · injection h with h
          rw [← h] at hr
          exact ih rest hrest r hr

theorem searchScan_error (now : Int) (chunks : Record String ArticleChunk)
    (q : List ℝ) (opts : SearchOptions) :
    ∀ (es : List Embedding) (m : String),
      searchScan now chunks q opts es = .error m →
        m = "Vectors must have the same length" := by
  intro es
  induction es with
  | nil => intro m h; cases h
  | cons e es ih =>
    intro m h
    unfold searchScan at h
    split at h
    · next msg hcs =>
      injection h with h
      subst h
      unfold cosineSimilarity at hcs
      split at hcs
      · injection hcs with hcs
        exact hcs.symm
      · split at hcs <;> cases hcs
    · split at h
      · next msg hrest =>
        injection h with h
        subst h
        exact ih msg hrest
      · split at h
        · split at h <;> cases h
        · cases h

/-- C1: every result returned by `search` passed the threshold test on its
raw cosine similarity (`similarity >= options.minSimilarity`); the recency
boost `score = similarity × max(1, recentBoostFactor − ageInDays/365)` only
changes the ranking score of results that already passed, so enabling
`boostRecent` never admits a result whose raw similarity is below the
threshold. -/
theorem search_threshold (disk : Option VectorStore) (now : Int)
    (svc : VectorStoreService) (q : List ℝ) (opts : SearchOptions)
    (res : List VectorSearchResult)
    (hok : VectorStoreService.search disk now svc q opts = .ok res) :
    ∀ r ∈ res, opts.minSimilarity ≤ r.similarity ∧
      (opts.boostRecent = false → r.score = r.similarity) ∧
      (opts.boostRecent = true → r.score = r.similarity *
        max 1 (opts.recentBoostFactor -
          ((getArticleAgeInDays now r.chunk.updatedAt : Int) : ℝ) / 365)) := by
  intro r hr
  unfold VectorStoreService.search at hok
  split at hok
  · cases hok
  · next results hscan =>
    injection hok with hok
    rw [← hok] at hr
    have hr2 : r ∈ results :=
      List.mem_mergeSort.mp (List.mem_of_mem_take hr)
    have hmain := searchScan_mem now _ q opts _ results hscan r hr2
    refine ⟨hmain.1, ?_, ?_⟩
    · intro hb
      rw [hmain.2]
      unfold boostedScore
      rw [hb]
      rfl
    · intro hb
      rw [hmain.2]
      unfold boostedScore
      rw [hb]
      rfl

/-- C9: `search`, `upsertData`, and `removeArticles` never raise the
not-loaded error on any service state: each loads first when needed (with
the empty-store fallback), so `search` can only fail with the
dimension-mismatch error, and the two mutators always succeed. -/
theorem operations_load_on_demand (disk : Option VectorStore) (now : Int)
    (svc : VectorStoreService) (q : List ℝ) (opts : SearchOptions)
    (articles : List ZendeskArticle) (chunks : List ArticleChunk)
    (embeddings : List Embedding) (em : String) (cs co : Nat)
    (ids : List Int) :
    VectorStoreService.search disk now svc q opts
        ≠ .error "Vector store not loaded" ∧
    (∃ s', VectorStoreService.upsertData disk now articles chunks embeddings
        em cs co svc = .ok s') ∧
    (∃ s', VectorStoreService.removeArticles disk now ids svc = .ok s') := by
  refine ⟨?_, ?_, ?_⟩
  · intro hcontra
    unfold VectorStoreService.search at hcontra
    split at hcontra
    · next m hm =>
      injection hcontra with hcontra
      have := searchScan_error now _ q opts _ m hm
      rw [this] at hcontra
      simp at hcontra
    · cases hcontra
  · unfold VectorStoreService.upsertData VectorStoreService.save
    by_cases h : svc.isLoaded
    · simp only [h, if_true]
      rw [if_neg (by simp [h])]
      exact ⟨_, rfl⟩
    · simp only [h, if_false]
      rw [if_neg (by simp [VectorStoreService.load])]
      exact ⟨_, rfl⟩
  · unfold VectorStoreService.removeArticles VectorStoreService.save
    by_cases h : svc.isLoaded
    · simp only [h, if_true]
      rw [if_neg (by simp [h])]
      exact ⟨_, rfl⟩
    · simp only [h, if_false]
      rw [if_neg (by simp [VectorStoreService.load])]
      exact ⟨_, rfl⟩

/-! ### Concrete search run for the C1 witness -/

def cchunk : ArticleChunk := ⟨"c0", 1, "t", "x", 0, 1, "u", 0, 0⟩

noncomputable def cemb : Embedding := ⟨"c0_embedding", "c0", [1], "m", 0⟩

noncomputable def csvc : VectorStoreService :=
  { vectorStore :=
      { articles := []
        chunks := [("c0", cchunk)]
        embeddings := [("c0_embedding", cemb)]
        metadata := (createEmptyStore 0).metadata }
    isLoaded := true }

noncomputable def copts : SearchOptions := ⟨5, 1/2, true, false, 1.1⟩

theorem chcs : cosineSimilarity [(1:ℝ)] [1] = .ok 1 := by
  unfold cosineSimilarity
  rw [if_neg (by simp)]
  simp [Real.sqrt_one]

theorem chscan :
    searchScan 0 csvc.vectorStore.chunks [1] copts
      csvc.vectorStore.embeddings.values = .ok [⟨cchunk, cemb, 1, 1⟩] := by
  show searchScan 0 [("c0", cchunk)] [1] copts [cemb] = _
  unfold searchScan
  have hv : cemb.vector = [(1:ℝ)] := rfl
  rw [hv, chcs]
  rw [show searchScan 0 [("c0", cchunk)] [(1:ℝ)] copts [] = .ok [] from rfl]
  simp only []
  rw [if_pos (by norm_num [copts] : copts.minSimilarity ≤ (1:ℝ))]
  rw [show Record.lookup [("c0", cchunk)] cemb.articleChunkId = some cchunk from rfl]
  simp only [boostedScore]
  rw [if_neg (by simp [copts])]

theorem csearch : VectorStoreService.search none 0 csvc [1] copts
    = .ok [⟨cchunk, cemb, 1, 1⟩] := by
  unfold VectorStoreService.search
  rw [show (if csvc.isLoaded then csvc else VectorStoreService.load none 0 csvc)
    = csvc by simp [csvc]]
  rw [chscan]
  simp [List.mergeSort, copts]

/-- C1 witness: a concrete search whose single result has raw similarity 1
above the threshold 1/2 and, with boosting disabled, score equal to the raw
similarity. -/
theorem search_threshold_witness :
    ∃ res, VectorStoreService.search none 0 csvc [1] copts = .ok res ∧
      ∃ r ∈ res, copts.minSimilarity ≤ r.similarity ∧ r.score = r.similarity :=
  ⟨[⟨cchunk, cemb, 1, 1⟩], csearch,
    ⟨cchunk, cemb, 1, 1⟩, List.mem_singleton.mpr rfl,
    (search_threshold none 0 csvc [1] copts _ csearch _
      (List.mem_singleton.mpr rfl)).1,
    (search_threshold none 0 csvc [1] copts _ csearch _
      (List.mem_singleton.mpr rfl)).2.1 rfl⟩

/-! ## Claim C8: the retry wrapper (`EmbeddingService.retryRequest`) -/

/-- A parsed error (`parseError` in `src/types.ts` validates any thrown
value into this shape; the model's operations fail with already-parsed
errors, on which `parseError` is the identity, so only the fields the
retry logic reads are kept). -/
structure SafeError where
  message : String
  name : Option String := none
  status : Option Nat := none
deriving Repr, DecidableEq

structure RetryOptions where
  maxRetries : Nat
  baseDelay : Nat
  maxDelay : Nat
  backoffFactor : Nat
deriving Repr, DecidableEq

/-- The `EmbeddingService` constructor's retry configuration. -/
def retryOptions : RetryOptions :=
  { maxRetries := 3, baseDelay := 1000, maxDelay := 30000, backoffFactor := 2 }

/-- "Don't retry client errors except rate limits":
`status && status >= 400 && status < 500 && status !== 429` (a missing or
zero — falsy — status is retryable; zero is outside [400, 500) anyway). -/
def isNonRetryable (e : SafeError) : Bool :=
  match e.status with
  | some s => decide (400 ≤ s) && decide (s < 500) && decide (s ≠ 429)
  | none => false

/-- The `for (attempt = 0; attempt <= maxRetries; attempt++)` loop of
`retryRequest`. The backend operation is modelled as the sequence of
outcomes of its successive invocations (`f attempt`); `fuel` is
`maxRetries - attempt`, so `fuel = 0` is the `attempt === maxRetries`
break. Returns the result (`throw lastError` on failure), the number of
attempts actually made, and the backoff delays slept between attempts,
each `min(baseDelay * backoffFactor ^ attempt, maxDelay)`. -/
def retryGo {α : Type} (opts : RetryOptions) (f : Nat → Except SafeError α) :
    Nat → Nat → Except SafeError α × Nat × List Nat
  | 0, attempt =>
    match f attempt with
    | .ok a => (.ok a, 1, [])
    | .error e => (.error e, 1, [])
  | fuel + 1, attempt =>
    match f attempt with
    | .ok a => (.ok a, 1, [])
    | .error e =>
      if isNonRetryable e then (.error e, 1, [])
      else
        ((retryGo opts f fuel (attempt + 1)).1,
         (retryGo opts f fuel (attempt + 1)).2.1 + 1,
         min (opts.baseDelay * opts.backoffFactor ^ attempt) opts.maxDelay ::
           (retryGo opts f fuel (attempt + 1)).2.2)

/-- `retryRequest(operation)`, instrumented with the attempt count and the
delays slept. -/
def retryRequest {α : Type} (f : Nat → Except SafeError α) :
    Except SafeError α × Nat × List Nat :=
  retryGo retryOptions f retryOptions.maxRetries 0

theorem retryGo_calls_le {α : Type} (opts : RetryOptions)
    (f : Nat → Except SafeError α) :
    ∀ fuel attempt, (retryGo opts f fuel attempt).2.1 ≤ fuel + 1 := by
  intro fuel
  induction fuel with
  | zero =>
    intro attempt
    unfold retryGo
    split <;> simp
  | succ fuel ih =>
    intro attempt
    unfold retryGo
    split
    · simp
    · split
      · simp
      · have := ih (attempt + 1)
        simpa using Nat.add_le_add_right this 1

theorem retryGo_delays {α : Type} (opts : RetryOptions)
    (f : Nat → Except SafeError α) :
    ∀ fuel attempt, (retryGo opts f fuel attempt).2.2 =
      (List.range ((retryGo opts f fuel attempt).2.1 - 1)).map
        (fun i => min (opts.baseDelay * opts.backoffFactor ^ (attempt + i))
          opts.maxDelay) := by
  intro fuel
  induction fuel with
  | zero =>
    intro attempt
    unfold retryGo
    split <;> simp
  | succ fuel ih =>
    intro attempt
    unfold retryGo
    split
    · simp
    · split
      · simp
      · simp only []
        rw [ih (attempt + 1)]
        rw [show (retryGo opts f fuel (attempt + 1)).2.1 + 1 - 1
          = ((retryGo opts f fuel (attempt + 1)).2.1 - 1) + 1 by
            have := retryGo_calls_le opts f fuel (attempt + 1)
            have hpos : 1 ≤ (retryGo opts f fuel (attempt + 1)).2.1 := by
              clear this
              induction fuel generalizing attempt with
              | zero => unfold retryGo; split <;> simp
              | succ fuel ih2 =>
                unfold retryGo
                split
                · simp
                · split
                  · simp
                  · simp
            omega]
        rw [List.range_succ_eq_map, List.map_cons, List.map_map]
        refine congrArg₂ _ (by rw [Nat.add_zero]) ?_
        apply List.map_congr_left
        intro i _
        have : attempt + 1 + i = attempt + (i + 1) := by omega
        simp [Function.comp, this]

theorem retryGo_exhaust {α : Type} (opts : RetryOptions)
    (f : Nat → Except SafeError α) :
    ∀ fuel attempt,
      (∀ i, i ≤ fuel → ∃ e, f (attempt + i) = .error e ∧
        (i < fuel → isNonRetryable e = false)) →
      (retryGo opts f fuel attempt).1 = f (attempt + fuel) := by
  intro fuel
  induction fuel with
  | zero =>
    intro attempt h
    obtain ⟨e, he, _⟩ := h 0 (Nat.le_refl 0)
    rw [Nat.add_zero] at he ⊢
    unfold retryGo
    rw [he]
  | succ fuel ih =>
    intro attempt h
    obtain ⟨e, he, hnr⟩ := h 0 (Nat.zero_le _)
    rw [Nat.add_zero] at he
    unfold retryGo
    rw [he]
    simp only []
    rw [if_neg (by rw [hnr (Nat.succ_pos fuel)]; exact Bool.false_ne_true)]
    have := ih (attempt + 1) (fun i hi => by
      obtain ⟨e2, he2, hnr2⟩ := h (i + 1) (Nat.succ_le_succ hi)
      refine ⟨e2, by rw [show attempt + 1 + i = attempt + (i + 1) by omega]; exact he2,
        fun hlt => hnr2 (Nat.succ_lt_succ hlt)⟩)
    rw [this, show attempt + 1 + fuel = attempt + (fuel + 1) by omega]

/-- C8: the retry policy. A first-call error with a 4xx status other than
429 is surfaced after exactly one attempt with no delay; at most
`maxRetries + 1 = 4` attempts are ever made; every delay slept follows
`min(baseDelay * backoffFactor ^ attempt, maxDelay)`; and when every
attempt fails (earlier ones retryably), the last observed error — the
outcome of attempt `maxRetries` — is thrown to the caller. -/
theorem retryRequest_policy {α : Type} (f : Nat → Except SafeError α) :
    (∀ e, f 0 = .error e → isNonRetryable e = true →
      retryRequest f = (.error e, 1, [])) ∧
    (retryRequest f).2.1 ≤ retryOptions.maxRetries + 1 ∧
    ((retryRequest f).2.2 = (List.range ((retryRequest f).2.1 - 1)).map
      (fun i => min (retryOptions.baseDelay * retryOptions.backoffFactor ^ i)
        retryOptions.maxDelay)) ∧
    ((∀ i, i ≤ retryOptions.maxRetries → ∃ e, f i = .error e ∧
        (i < retryOptions.maxRetries → isNonRetryable e = false)) →
      (retryRequest f).1 = f retryOptions.maxRetries) := by
  refine ⟨?_, ?_, ?_, ?_⟩
  · intro e he hnr
    unfold retryRequest retryOptions
    simp only []
    unfold retryGo
    rw [he]
    simp only []
    rw [if_pos hnr]
  · exact retryGo_calls_le retryOptions f retryOptions.maxRetries 0
  · have := retryGo_delays retryOptions f retryOptions.maxRetries 0
    simpa using this
  · intro h
    have := retryGo_exhaust retryOptions f retryOptions.maxRetries 0
      (fun i hi => by simpa using h i hi)
    simpa using this

def err404 : SafeError := ⟨"bad request", none, some 404⟩

def err500 : SafeError := ⟨"server error", none, some 500⟩

def opAlways404 : Nat → Except SafeError Unit := fun _ => .error err404

def opAlways500 : Nat → Except SafeError Unit := fun _ => .error err500

/-- C8 witness: a 404 is surfaced after exactly one attempt with no
delays; an always-failing 500 operation is attempted 4 times with delays
1000, 2000, 4000 and surfaces the last error. -/
theorem retryRequest_policy_witness :
    isNonRetryable err404 = true ∧
    retryRequest opAlways404 = (.error err404, 1, []) ∧
    (retryRequest opAlways500).2.1 ≤ 4 ∧
    (retryRequest opAlways500).1 = opAlways500 3 ∧
    retryRequest opAlways500 = (.error err500, 4, [1000, 2000, 4000]) :=
  ⟨by decide,
    (retryRequest_policy opAlways404).1 err404 rfl (by decide),
    (retryRequest_policy opAlways500).2.1,
    (retryRequest_policy opAlways500).2.2.2
      (fun i _ => ⟨err500, rfl, fun _ => by decide⟩),
    rfl⟩

end RagPoc
